import Mathlib

/- Verification development for the Celestial Spark repository.

   Shallow embedding of the application core:
   - the Geometry Projector (createConstellationSketch in
     src/services/geminiService.ts), modelled over exact rationals;
   - the Selection Tracker and Connection Animator
     (handleCanvasInteraction and the connection-animation effect in
     src/components/StarCanvas.tsx), with JavaScript Euclidean-distance
     comparisons replaced by the equivalent squared-distance comparisons
     (the square root is strictly monotone on nonnegative reals, so
     sqrt d < sqrt e iff d < e);
   - the orchestrator state machine (App.tsx: startJourney,
     handleStarsSelected, handleEdit), with the two collaborator calls
     parameterised by their outcomes;
   - the coordinate normalisation performed by
     generateConstellationMetadata before transmission. -/

namespace CelestialSpark

/-- A plane point, as in types.ts. Coordinates are modelled as exact
rationals. -/
structure Point where
  x : ℚ
  y : ℚ
deriving DecidableEq

/-- A star of the star field, as in types.ts (Star extends Point). -/
structure Star where
  id : ℕ
  x : ℚ
  y : ℚ
  size : ℚ
  alpha : ℚ
  isSelected : Bool
deriving DecidableEq

/-- The position of a star, forgetting its visual attributes. -/
def Star.pos (s : Star) : Point := ⟨s.x, s.y⟩

/- ---------------------------------------------------------------
   Geometry Projector: createConstellationSketch
   (src/services/geminiService.ts, lines 81-156).
   The canvas is 768 wide and 1024 high; the target region is 60% of
   the width and 40% of the height, centred at
   (width / 2, height * 0.35).
   --------------------------------------------------------------- -/

def frameWidth : ℚ := 768

def frameHeight : ℚ := 1024

def targetW : ℚ := frameWidth * 0.6

def targetH : ℚ := frameHeight * 0.4

def targetCenterX : ℚ := frameWidth / 2

def targetCenterY : ℚ := frameHeight * 0.35

/-- Minimum x over the input points. The source folds min starting from
positive Infinity; on a non-empty list this equals folding from the
first element, and the empty case is unreachable because the source
returns the blank sketch before computing the bounding box. -/
def bbMinX : List Point → ℚ
  | [] => 0
  | p :: ps => ps.foldl (fun m q => min m q.x) p.x

/-- Maximum x over the input points (source folds max from -Infinity). -/
def bbMaxX : List Point → ℚ
  | [] => 0
  | p :: ps => ps.foldl (fun m q => max m q.x) p.x

/-- Minimum y over the input points. -/
def bbMinY : List Point → ℚ
  | [] => 0
  | p :: ps => ps.foldl (fun m q => min m q.y) p.y

/-- Maximum y over the input points. -/
def bbMaxY : List Point → ℚ
  | [] => 0
  | p :: ps => ps.foldl (fun m q => max m q.y) p.y

/-- width = maxX - minX. -/
def bbWidth (ps : List Point) : ℚ := bbMaxX ps - bbMinX ps

/-- height = maxY - minY. -/
def bbHeight (ps : List Point) : ℚ := bbMaxY ps - bbMinY ps

/-- scaleX = width > 0 ? targetW / width : 1. -/
def scaleX (ps : List Point) : ℚ :=
  if 0 < bbWidth ps then targetW / bbWidth ps else 1

/-- scaleY = height > 0 ? targetH / height : 1. -/
def scaleY (ps : List Point) : ℚ :=
  if 0 < bbHeight ps then targetH / bbHeight ps else 1

/-- scale = Math.min(scaleX, scaleY). -/
def sketchScale (ps : List Point) : ℚ := min (scaleX ps) (scaleY ps)

/-- Centre the point in the bounding box, scale, translate to the target
centre (lines 132-135 and 145-148 of geminiService.ts). -/
def projectPoint (ps : List Point) (p : Point) : Point :=
  let relX := p.x - (bbMinX ps + bbWidth ps / 2)
  let relY := p.y - (bbMinY ps + bbHeight ps / 2)
  ⟨targetCenterX + relX * sketchScale ps, targetCenterY + relY * sketchScale ps⟩

/-- All projected points, in input order. -/
def projectPoints (ps : List Point) : List Point := ps.map (projectPoint ps)

/-- The guidance sketch: a raster of fixed size with a black background,
a white polyline through the projected points and a white filled marker
at each projected point.  We record the geometric content (which marks
are drawn where); pixel colours are fixed by the source. -/
structure Sketch where
  width : ℕ
  height : ℕ
  polyline : List Point
  nodes : List Point
deriving DecidableEq

/-- createConstellationSketch: black background always; on an empty
input the function returns right after filling the background (line 95),
so no polyline and no nodes are drawn. -/
def createConstellationSketch (stars : List Point) : Sketch :=
  if stars = [] then ⟨768, 1024, [], []⟩
  else ⟨768, 1024, projectPoints stars, projectPoints stars⟩

/-- The closed target region of the sketch frame. -/
def inTargetRegion (q : Point) : Prop :=
  targetCenterX - targetW / 2 ≤ q.x ∧ q.x ≤ targetCenterX + targetW / 2 ∧
  targetCenterY - targetH / 2 ≤ q.y ∧ q.y ≤ targetCenterY + targetH / 2

instance (q : Point) : Decidable (inTargetRegion q) := by
  unfold inTargetRegion; infer_instance

/- ---------------------------------------------------------------
   Selection Tracker: handleCanvasInteraction
   (src/components/StarCanvas.tsx, lines 127-159).
   The source compares Euclidean distances against a hit radius of 50
   and against the running minimum; we compare squared distances
   against 2500 and the running minimum squared distance, which is
   equivalent because the square root is strictly monotone on
   nonnegative reals.
   --------------------------------------------------------------- -/

/-- Squared hit radius: the source initialises minDist to 50 units. -/
def hitRadiusSq : ℚ := 2500

/-- Squared Euclidean distance between two points. -/
def sqDist (p q : Point) : ℚ := (p.x - q.x) * (p.x - q.x) + (p.y - q.y) * (p.y - q.y)

/-- One step of the closest-star fold: replace the running minimum when
the candidate is strictly closer (the source uses dist < minDist). -/
def closestStep (pos : Point) (acc : ℚ × Option Star) (star : Star) :
    ℚ × Option Star :=
  if sqDist star.pos pos < acc.1 then (sqDist star.pos pos, some star) else acc

/-- The fold of the source over the star field, carrying the running
minimum (squared) distance and the best candidate so far. -/
def findClosestAux (pos : Point) (stars : List Star)
    (acc : ℚ × Option Star) : ℚ × Option Star :=
  stars.foldl (closestStep pos) acc

/-- The closest star within the hit radius, if any (lines 140-150). -/
def findClosest (pos : Point) (stars : List Star) : Option Star :=
  (findClosestAux pos stars (hitRadiusSq, none)).2

/-- handleCanvasInteraction: the early return when inactive or when five
stars are already selected, then hit-testing, then append and progress
report.  The second component is the progress count reported to
onProgress (none when no report is made). -/
def handleCanvasInteraction (isActive : Bool) (pos : Point)
    (stars : List Star) (selected : List Star) : List Star × Option ℕ :=
  if isActive = false ∨ 5 ≤ selected.length then (selected, none)
  else
    match findClosest pos stars with
    | none => (selected, none)
    | some s =>
      let newSelection := selected ++ [s]
      (newSelection, some newSelection.length)

/- ---------------------------------------------------------------
   Connection Animator: the connection-animation effect
   (src/components/StarCanvas.tsx, lines 50-61).
   --------------------------------------------------------------- -/

/-- CONNECTION_SPEED = 200 ms per line. -/
def CONNECTION_SPEED : ℕ := 200

/-- A scheduled timer callback: its delay in milliseconds and the point
sequence handed to onStarsSelected.  The callback parameter has the
interface type of a list of plain points, so the payload is the
position projection of the selected stars. -/
structure ScheduledCallback where
  delay : ℕ
  payload : List Point
deriving DecidableEq

/-- One run of the effect body: when exactly five stars are selected and
no connection animation is running, set the flag and schedule the
callback after (length * CONNECTION_SPEED) + 500 ms; otherwise do
nothing.  Returns the new flag and the scheduled callback, if any. -/
def connectionEffect (selectedStars : List Star)
    (isAnimatingConnection : Bool) : Bool × Option ScheduledCallback :=
  if selectedStars.length = 5 ∧ isAnimatingConnection = false then
    (true, some ⟨selectedStars.length * CONNECTION_SPEED + 500,
                 selectedStars.map Star.pos⟩)
  else
    (isAnimatingConnection, none)

/-- Number of callbacks scheduled over n consecutive runs of the effect
(the dependencies may retrigger it any number of times before the timer
fires; selectedStars can no longer change once its length is 5). -/
def runConnectionEffect (sel : List Star) : Bool → ℕ → ℕ
  | _, 0 => 0
  | flag, n + 1 =>
    let r := connectionEffect sel flag
    (if (r.2).isSome then 1 else 0) + runConnectionEffect sel r.1 n

/- ---------------------------------------------------------------
   Coordinate normalisation for the metadata collaborator
   (src/services/geminiService.ts, lines 21-24).
   --------------------------------------------------------------- -/

/-- JavaScript Math.round: round half towards positive infinity, which
is the floor of the argument plus one half. -/
def jsRound (q : ℚ) : ℤ := ⌊q + 1 / 2⌋

/-- An integer grid point on the 0-100 scale. -/
structure IntPoint where
  x : ℤ
  y : ℤ
deriving DecidableEq

/-- The normalisation map applied to the selected stars before they are
sent to the metadata collaborator. -/
def normalizeStars (stars : List Point) (canvasWidth canvasHeight : ℚ) :
    List IntPoint :=
  stars.map fun s =>
    ⟨jsRound (s.x / canvasWidth * 100), jsRound (s.y / canvasHeight * 100)⟩

/- ---------------------------------------------------------------
   Orchestrator state machine (App.tsx in the repository root,
   reproduced as a related document of src/components/StarCanvas.tsx).
   The two collaborator calls are parameterised by their outcomes.
   --------------------------------------------------------------- -/

/-- The application phases of types.ts. -/
inductive AppPhase
  | INTRO
  | SELECTING
  | CONNECTING
  | GENERATING_METADATA
  | GENERATING_IMAGE
  | RESULT
  | EDITING
deriving DecidableEq

/-- ConstellationMetadata of types.ts. -/
structure ConstellationMetadata where
  name : String
  horoscope : String
  visualPrompt : String
deriving DecidableEq

/-- The orchestrator state held by App: phase, selected stars, progress
count, metadata, generated image, and the canvas remount key. -/
structure AppState where
  phase : AppPhase
  selectedStars : List Point
  starCount : ℕ
  constellationData : Option ConstellationMetadata
  generatedImage : Option String
  canvasKey : ℕ
deriving DecidableEq

/-- startJourney: enter SELECTING with all per-cycle state cleared and a
fresh canvas key. -/
def startJourney (s : AppState) : AppState :=
  { s with
    phase := .SELECTING
    selectedStars := []
    starCount := 0
    constellationData := none
    generatedImage := none
    canvasKey := s.canvasKey + 1 }

/-- Outcome of the metadata API call inside generateConstellationMetadata:
the model returned parseable text, returned no text, or the transport
failed.  The latter two both raise inside the try block of the source. -/
inductive MetaApiOutcome
  | success (m : ConstellationMetadata)
  | noText
  | apiError
deriving DecidableEq

/-- The fixed fallback metadata of the catch branch
(src/services/geminiService.ts, lines 69-73). -/
def fallbackMetadata : ConstellationMetadata :=
  { name := "The Unseen Path"
    horoscope := "Your 2026 is a canvas waiting for your own light to guide the way."
    visualPrompt := "A glowing mystic constellation on a dark blue card, gold filigree borders, holographic style." }

/-- generateConstellationMetadata seen from its caller: it catches every
internal failure and returns the fallback, so it is total and never
rejects. -/
def generateConstellationMetadata (o : MetaApiOutcome) : ConstellationMetadata :=
  match o with
  | .success m => m
  | .noText => fallbackMetadata
  | .apiError => fallbackMetadata

/-- handleStarsSelected: store the stars, enter GENERATING_METADATA, run
the metadata step (total, see above), store its result and enter
GENERATING_IMAGE, then run the image step; on success store the image
and enter RESULT, on failure the catch branch only resets the phase to
INTRO (it clears nothing else). -/
def handleStarsSelected (s : AppState) (stars : List Point)
    (mo : MetaApiOutcome) (io : Except Unit String) : AppState :=
  let s1 : AppState := { s with selectedStars := stars, phase := .GENERATING_METADATA }
  let metadata := generateConstellationMetadata mo
  let s2 : AppState :=
    { s1 with constellationData := some metadata, phase := .GENERATING_IMAGE }
  match io with
  | .ok imageBase64 => { s2 with generatedImage := some imageBase64, phase := .RESULT }
  | .error _ => { s2 with phase := .INTRO }

/-- handleEdit: a no-op without a current image; otherwise remember the
previous phase, enter EDITING, and on success replace the image and
enter RESULT, on failure restore the previous phase. -/
def handleEdit (s : AppState) (instruction : String)
    (eo : Except Unit String) : AppState :=
  match s.generatedImage with
  | none => s
  | some _ =>
    let previousPhase := s.phase
    let s1 : AppState := { s with phase := .EDITING }
    match eo with
    | .ok newImageBase64 =>
      { s1 with generatedImage := some newImageBase64, phase := .RESULT }
    | .error _ => { s1 with phase := previousPhase }

/-- The result card is rendered exactly when the phase is RESULT or
EDITING and both metadata and image are present (App.tsx, line 348). -/
def resultSurfaced (s : AppState) : Prop :=
  (s.phase = .RESULT ∨ s.phase = .EDITING) ∧
  s.constellationData ≠ none ∧ s.generatedImage ≠ none

/- ---------------------------------------------------------------
   Helper lemmas about the bounding-box folds.
   --------------------------------------------------------------- -/

lemma foldl_min_le_init (f : Point → ℚ) (l : List Point) :
    ∀ a : ℚ, l.foldl (fun m q => min m (f q)) a ≤ a := by
  induction l with
  | nil => intro a; exact le_refl a
  | cons q l ih => intro a; exact le_trans (ih (min a (f q))) (min_le_left _ _)

lemma foldl_min_le_mem (f : Point → ℚ) (l : List Point) :
    ∀ a : ℚ, ∀ p ∈ l, l.foldl (fun m q => min m (f q)) a ≤ f p := by
  induction l with
  | nil => intro a p hp; cases hp
  | cons q l ih =>
    intro a p hp
    rcases List.mem_cons.mp hp with h | h
    · subst h
      exact le_trans (foldl_min_le_init f l (min a (f p))) (min_le_right _ _)
    · exact ih (min a (f q)) p h

lemma le_foldl_min (f : Point → ℚ) (l : List Point) :
    ∀ a c : ℚ, c ≤ a → (∀ p ∈ l, c ≤ f p) →
      c ≤ l.foldl (fun m q => min m (f q)) a := by
  induction l with
  | nil => intro a c ha _; exact ha
  | cons q l ih =>
    intro a c ha h
    exact ih (min a (f q)) c (le_min ha (h q (List.mem_cons_self q l)))
      fun p hp => h p (List.mem_cons_of_mem q hp)

lemma init_le_foldl_max (f : Point → ℚ) (l : List Point) :
    ∀ a : ℚ, a ≤ l.foldl (fun m q => max m (f q)) a := by
  induction l with
  | nil => intro a; exact le_refl a
  | cons q l ih => intro a; exact le_trans (le_max_left _ _) (ih (max a (f q)))

lemma mem_le_foldl_max (f : Point → ℚ) (l : List Point) :
    ∀ a : ℚ, ∀ p ∈ l, f p ≤ l.foldl (fun m q => max m (f q)) a := by
  induction l with
  | nil => intro a p hp; cases hp
  | cons q l ih =>
    intro a p hp
    rcases List.mem_cons.mp hp with h | h
    · subst h
      exact le_trans (le_max_right _ _) (init_le_foldl_max f l (max a (f p)))
    · exact ih (max a (f q)) p h

lemma foldl_max_le (f : Point → ℚ) (l : List Point) :
    ∀ a c : ℚ, a ≤ c → (∀ p ∈ l, f p ≤ c) →
      l.foldl (fun m q => max m (f q)) a ≤ c := by
  induction l with
  | nil => intro a c ha _; exact ha
  | cons q l ih =>
    intro a c ha h
    exact ih (max a (f q)) c (max_le ha (h q (List.mem_cons_self q l)))
      fun p hp => h p (List.mem_cons_of_mem q hp)

lemma foldl_min_self (f : Point → ℚ) (p0 : Point) :
    ∀ l : List Point, (∀ p ∈ l, p = p0) →
      l.foldl (fun m q => min m (f q)) (f p0) = f p0 := by
  intro l
  induction l with
  | nil => intro _; rfl
  | cons q l ih =>
    intro h
    have hq : q = p0 := h q (List.mem_cons_self q l)
    subst hq
    simpa [min_self] using ih fun p hp => h p (List.mem_cons_of_mem q hp)

lemma foldl_max_self (f : Point → ℚ) (p0 : Point) :
    ∀ l : List Point, (∀ p ∈ l, p = p0) →
      l.foldl (fun m q => max m (f q)) (f p0) = f p0 := by
  intro l
  induction l with
  | nil => intro _; rfl
  | cons q l ih =>
    intro h
    have hq : q = p0 := h q (List.mem_cons_self q l)
    subst hq
    simpa [max_self] using ih fun p hp => h p (List.mem_cons_of_mem q hp)

/- ---------------------------------------------------------------
   Bounding-box facts for non-empty point lists.
   --------------------------------------------------------------- -/

lemma bbMinX_le {p0 : Point} {ps : List Point} {p : Point}
    (hp : p ∈ p0 :: ps) : bbMinX (p0 :: ps) ≤ p.x := by
  rcases List.mem_cons.mp hp with h | h
  · subst h; exact foldl_min_le_init (fun q => q.x) ps p.x
  · exact foldl_min_le_mem (fun q => q.x) ps p0.x p h

lemma le_bbMaxX {p0 : Point} {ps : List Point} {p : Point}
    (hp : p ∈ p0 :: ps) : p.x ≤ bbMaxX (p0 :: ps) := by
  rcases List.mem_cons.mp hp with h | h
  · subst h; exact init_le_foldl_max (fun q => q.x) ps p.x
  · exact mem_le_foldl_max (fun q => q.x) ps p0.x p h

lemma bbMinY_le {p0 : Point} {ps : List Point} {p : Point}
    (hp : p ∈ p0 :: ps) : bbMinY (p0 :: ps) ≤ p.y := by
  rcases List.mem_cons.mp hp with h | h
  · subst h; exact foldl_min_le_init (fun q => q.y) ps p.y
  · exact foldl_min_le_mem (fun q => q.y) ps p0.y p h

lemma le_bbMaxY {p0 : Point} {ps : List Point} {p : Point}
    (hp : p ∈ p0 :: ps) : p.y ≤ bbMaxY (p0 :: ps) := by
  rcases List.mem_cons.mp hp with h | h
  · subst h; exact init_le_foldl_max (fun q => q.y) ps p.y
  · exact mem_le_foldl_max (fun q => q.y) ps p0.y p h

lemma bbWidth_nonneg (p0 : Point) (ps : List Point) :
    0 ≤ bbWidth (p0 :: ps) := by
  have h1 := bbMinX_le (List.mem_cons_self p0 ps)
  have h2 := le_bbMaxX (List.mem_cons_self p0 ps)
  unfold bbWidth
  linarith

lemma bbHeight_nonneg (p0 : Point) (ps : List Point) :
    0 ≤ bbHeight (p0 :: ps) := by
  have h1 := bbMinY_le (List.mem_cons_self p0 ps)
  have h2 := le_bbMaxY (List.mem_cons_self p0 ps)
  unfold bbHeight
  linarith

lemma targetW_pos : 0 < targetW := by norm_num [targetW, frameWidth]

lemma targetH_pos : 0 < targetH := by norm_num [targetH, frameHeight]

lemma scaleX_pos (ps : List Point) : 0 < scaleX ps := by
  unfold scaleX
  split
  · exact div_pos targetW_pos (by assumption)
  · norm_num

lemma scaleY_pos (ps : List Point) : 0 < scaleY ps := by
  unfold scaleY
  split
  · exact div_pos targetH_pos (by assumption)
  · norm_num

lemma sketchScale_pos (ps : List Point) : 0 < sketchScale ps :=
  lt_min (scaleX_pos ps) (scaleY_pos ps)

lemma scale_mul_width_le (p0 : Point) (ps : List Point) :
    sketchScale (p0 :: ps) * bbWidth (p0 :: ps) ≤ targetW := by
  rcases eq_or_lt_of_le (bbWidth_nonneg p0 ps) with h | h
  · rw [← h, mul_zero]; exact targetW_pos.le
  · have hsx : sketchScale (p0 :: ps) ≤ targetW / bbWidth (p0 :: ps) := by
      have h1 : scaleX (p0 :: ps) = targetW / bbWidth (p0 :: ps) := by
        unfold scaleX; rw [if_pos h]
      exact h1 ▸ min_le_left (scaleX (p0 :: ps)) (scaleY (p0 :: ps))
    calc sketchScale (p0 :: ps) * bbWidth (p0 :: ps)
        ≤ (targetW / bbWidth (p0 :: ps)) * bbWidth (p0 :: ps) :=
          mul_le_mul_of_nonneg_right hsx h.le
      _ = targetW := div_mul_cancel₀ _ (ne_of_gt h)

lemma scale_mul_height_le (p0 : Point) (ps : List Point) :
    sketchScale (p0 :: ps) * bbHeight (p0 :: ps) ≤ targetH := by
  rcases eq_or_lt_of_le (bbHeight_nonneg p0 ps) with h | h
  · rw [← h, mul_zero]; exact targetH_pos.le
  · have hsy : sketchScale (p0 :: ps) ≤ targetH / bbHeight (p0 :: ps) := by
      have h1 : scaleY (p0 :: ps) = targetH / bbHeight (p0 :: ps) := by
        unfold scaleY; rw [if_pos h]
      exact h1 ▸ min_le_right (scaleX (p0 :: ps)) (scaleY (p0 :: ps))
    calc sketchScale (p0 :: ps) * bbHeight (p0 :: ps)
        ≤ (targetH / bbHeight (p0 :: ps)) * bbHeight (p0 :: ps) :=
          mul_le_mul_of_nonneg_right hsy h.le
      _ = targetH := div_mul_cancel₀ _ (ne_of_gt h)

lemma projectPoint_mem_region {p0 : Point} {ps : List Point} {p : Point}
    (hp : p ∈ p0 :: ps) : inTargetRegion (projectPoint (p0 :: ps) p) := by
  have hminx := bbMinX_le hp
  have hmaxx := le_bbMaxX hp
  have hminy := bbMinY_le hp
  have hmaxy := le_bbMaxY hp
  have hs : 0 < sketchScale (p0 :: ps) := sketchScale_pos _
  have hsw := scale_mul_width_le p0 ps
  have hsh := scale_mul_height_le p0 ps
  have hmx : bbMaxX (p0 :: ps) = bbMinX (p0 :: ps) + bbWidth (p0 :: ps) := by
    unfold bbWidth; ring
  have hmy : bbMaxY (p0 :: ps) = bbMinY (p0 :: ps) + bbHeight (p0 :: ps) := by
    unfold bbHeight; ring
  have h1 : p.x - (bbMinX (p0 :: ps) + bbWidth (p0 :: ps) / 2) ≤
      bbWidth (p0 :: ps) / 2 := by rw [hmx] at hmaxx; linarith
  have h2 : -(bbWidth (p0 :: ps) / 2) ≤
      p.x - (bbMinX (p0 :: ps) + bbWidth (p0 :: ps) / 2) := by linarith
  have h3 : p.y - (bbMinY (p0 :: ps) + bbHeight (p0 :: ps) / 2) ≤
      bbHeight (p0 :: ps) / 2 := by rw [hmy] at hmaxy; linarith
  have h4 : -(bbHeight (p0 :: ps) / 2) ≤
      p.y - (bbMinY (p0 :: ps) + bbHeight (p0 :: ps) / 2) := by linarith
  have hx1 : (p.x - (bbMinX (p0 :: ps) + bbWidth (p0 :: ps) / 2)) *
      sketchScale (p0 :: ps) ≤ targetW / 2 := by
    have := mul_le_mul_of_nonneg_right h1 hs.le
    have heq : bbWidth (p0 :: ps) / 2 * sketchScale (p0 :: ps) =
        sketchScale (p0 :: ps) * bbWidth (p0 :: ps) / 2 := by ring
    linarith
  have hx2 : -(targetW / 2) ≤
      (p.x - (bbMinX (p0 :: ps) + bbWidth (p0 :: ps) / 2)) *
        sketchScale (p0 :: ps) := by
    have := mul_le_mul_of_nonneg_right h2 hs.le
    have heq : -(bbWidth (p0 :: ps) / 2) * sketchScale (p0 :: ps) =
        -(sketchScale (p0 :: ps) * bbWidth (p0 :: ps) / 2) := by ring
    linarith
  have hy1 : (p.y - (bbMinY (p0 :: ps) + bbHeight (p0 :: ps) / 2)) *
      sketchScale (p0 :: ps) ≤ targetH / 2 := by
    have := mul_le_mul_of_nonneg_right h3 hs.le
    have heq : bbHeight (p0 :: ps) / 2 * sketchScale (p0 :: ps) =
        sketchScale (p0 :: ps) * bbHeight (p0 :: ps) / 2 := by ring
    linarith
  have hy2 : -(targetH / 2) ≤
      (p.y - (bbMinY (p0 :: ps) + bbHeight (p0 :: ps) / 2)) *
        sketchScale (p0 :: ps) := by
    have := mul_le_mul_of_nonneg_right h4 hs.le
    have heq : -(bbHeight (p0 :: ps) / 2) * sketchScale (p0 :: ps) =
        -(sketchScale (p0 :: ps) * bbHeight (p0 :: ps) / 2) := by ring
    linarith
  refine ⟨?_, ?_, ?_, ?_⟩ <;> simp only [projectPoint] <;> linarith

/- ---------------------------------------------------------------
   Claim theorems for the Geometry Projector.
   --------------------------------------------------------------- -/

/-- C1: for every non-empty sequence of input points, the projected
points of createConstellationSketch all lie in the target region (60%
of the 768-wide frame by 40% of the 1024-high frame, centred at
(frameWidth / 2, frameHeight * 0.35)), hence so does their axis-aligned
bounding box, and one single scalar factor is applied to both the x and
the y coordinate of every point (aspect ratio preserved). -/
theorem projection_contained_and_uniform (p0 : Point) (ps : List Point) :
    (∀ q ∈ projectPoints (p0 :: ps), inTargetRegion q) ∧
    (targetCenterX - targetW / 2 ≤ bbMinX (projectPoints (p0 :: ps)) ∧
     bbMaxX (projectPoints (p0 :: ps)) ≤ targetCenterX + targetW / 2 ∧
     targetCenterY - targetH / 2 ≤ bbMinY (projectPoints (p0 :: ps)) ∧
     bbMaxY (projectPoints (p0 :: ps)) ≤ targetCenterY + targetH / 2) ∧
    (∃ s : ℚ, ∀ p ∈ p0 :: ps,
      projectPoint (p0 :: ps) p =
        ⟨targetCenterX + (p.x - (bbMinX (p0 :: ps) + bbWidth (p0 :: ps) / 2)) * s,
         targetCenterY + (p.y - (bbMinY (p0 :: ps) + bbHeight (p0 :: ps) / 2)) * s⟩) := by
  have hmem : ∀ q ∈ projectPoints (p0 :: ps), inTargetRegion q := by
    intro q hq
    rcases List.mem_map.mp hq with ⟨p, hp, rfl⟩
    exact projectPoint_mem_region hp
  refine ⟨hmem, ?_, ⟨sketchScale (p0 :: ps), fun p _ => rfl⟩⟩
  have hcons : projectPoints (p0 :: ps) =
      projectPoint (p0 :: ps) p0 :: ps.map (projectPoint (p0 :: ps)) := by
    simp [projectPoints]
  have hmem2 : ∀ q ∈ projectPoint (p0 :: ps) p0 :: ps.map (projectPoint (p0 :: ps)),
      inTargetRegion q := by
    intro q hq; exact hmem q (hcons ▸ hq)
  have h0 := hmem2 _ (List.mem_cons_self _ _)
  rw [hcons]
  refine ⟨?_, ?_, ?_, ?_⟩
  · exact le_foldl_min (fun q => q.x) _ _ _ h0.1
      fun p hp => (hmem2 p (List.mem_cons_of_mem _ hp)).1
  · exact foldl_max_le (fun q => q.x) _ _ _ h0.2.1
      fun p hp => (hmem2 p (List.mem_cons_of_mem _ hp)).2.1
  · exact le_foldl_min (fun q => q.y) _ _ _ h0.2.2.1
      fun p hp => (hmem2 p (List.mem_cons_of_mem _ hp)).2.2.1
  · exact foldl_max_le (fun q => q.y) _ _ _ h0.2.2.2
      fun p hp => (hmem2 p (List.mem_cons_of_mem _ hp)).2.2.2

/-- Witness for C1 at a concrete two-point input. -/
theorem projection_contained_and_uniform_witness :
    inTargetRegion (projectPoint [⟨0, 0⟩, ⟨10, 20⟩] ⟨10, 20⟩) :=
  (projection_contained_and_uniform ⟨0, 0⟩ [⟨10, 20⟩]).1
    (projectPoint [⟨0, 0⟩, ⟨10, 20⟩] ⟨10, 20⟩)
    (List.mem_map_of_mem _ (by simp))

/-- C7: a degenerate bounding box is handled by the scale fallback: a
zero width makes the x ratio 1 and a zero height makes the y ratio 1,
so the scale stays positive and no division by zero occurs; and when
all input points coincide, every projected point is exactly the target
region centre. -/
theorem degenerate_bbox_fallback (p0 : Point) (ps : List Point) :
    (bbWidth (p0 :: ps) = 0 → scaleX (p0 :: ps) = 1) ∧
    (bbHeight (p0 :: ps) = 0 → scaleY (p0 :: ps) = 1) ∧
    0 < sketchScale (p0 :: ps) ∧
    ((∀ p ∈ p0 :: ps, p = p0) →
      ∀ q ∈ projectPoints (p0 :: ps), q = ⟨targetCenterX, targetCenterY⟩) := by
  refine ⟨?_, ?_, sketchScale_pos _, ?_⟩
  · intro h; unfold scaleX; rw [h]; norm_num
  · intro h; unfold scaleY; rw [h]; norm_num
  · intro hall q hq
    have hminx : bbMinX (p0 :: ps) = p0.x :=
      foldl_min_self (fun q => q.x) p0 ps
        fun p hp => hall p (List.mem_cons_of_mem p0 hp)
    have hmaxx : bbMaxX (p0 :: ps) = p0.x :=
      foldl_max_self (fun q => q.x) p0 ps
        fun p hp => hall p (List.mem_cons_of_mem p0 hp)
    have hminy : bbMinY (p0 :: ps) = p0.y :=
      foldl_min_self (fun q => q.y) p0 ps
        fun p hp => hall p (List.mem_cons_of_mem p0 hp)
    have hmaxy : bbMaxY (p0 :: ps) = p0.y :=
      foldl_max_self (fun q => q.y) p0 ps
        fun p hp => hall p (List.mem_cons_of_mem p0 hp)
    rcases List.mem_map.mp hq with ⟨p, hp, rfl⟩
    have hpp : p = p0 := hall p hp
    subst hpp
    simp only [projectPoint, bbWidth, bbHeight, hminx, hmaxx, hminy, hmaxy]
    have hx : p.x - (p.x + (p.x - p.x) / 2) = 0 := by ring
    have hy : p.y - (p.y + (p.y - p.y) / 2) = 0 := by ring
    rw [hx, hy]
    simp

/-- Witness for C7: five coincident points all project to the centre of
the target region. -/
theorem degenerate_bbox_fallback_witness :
    ∀ q ∈ projectPoints [⟨10, 10⟩, ⟨10, 10⟩, ⟨10, 10⟩, ⟨10, 10⟩, ⟨10, 10⟩],
      q = (⟨targetCenterX, targetCenterY⟩ : Point) :=
  (degenerate_bbox_fallback ⟨10, 10⟩ [⟨10, 10⟩, ⟨10, 10⟩, ⟨10, 10⟩, ⟨10, 10⟩]).2.2.2
    (by decide)

/-- C9: createConstellationSketch on the empty point sequence returns
the blank target-sized raster: no polyline, no node markers, frame 768
by 1024 (black background only). -/
theorem createConstellationSketch_empty :
    (createConstellationSketch []).polyline = [] ∧
    (createConstellationSketch []).nodes = [] ∧
    (createConstellationSketch []).width = 768 ∧
    (createConstellationSketch []).height = 1024 := by
  refine ⟨?_, ?_, ?_, ?_⟩ <;> rfl

/- ---------------------------------------------------------------
   Helper lemmas about the closest-star fold.
   --------------------------------------------------------------- -/

lemma findClosestAux_fst_le (pos : Point) (l : List Star) :
    ∀ acc : ℚ × Option Star, (findClosestAux pos l acc).1 ≤ acc.1 := by
  induction l with
  | nil => intro acc; exact le_refl _
  | cons a l ih =>
    intro acc
    have hstep : (closestStep pos acc a).1 ≤ acc.1 := by
      unfold closestStep
      split
      · exact le_of_lt (by assumption)
      · exact le_refl _
    exact le_trans (ih (closestStep pos acc a)) hstep

lemma findClosestAux_fst_le_mem (pos : Point) (l : List Star) :
    ∀ acc : ℚ × Option Star, ∀ t ∈ l,
      (findClosestAux pos l acc).1 ≤ sqDist t.pos pos := by
  induction l with
  | nil => intro acc t ht; cases ht
  | cons a l ih =>
    intro acc t ht
    rcases List.mem_cons.mp ht with h | h
    · subst h
      have hstep : (closestStep pos acc t).1 ≤ sqDist t.pos pos := by
        unfold closestStep
        split
        · exact le_refl _
        · exact le_of_not_lt (by assumption)
      exact le_trans (findClosestAux_fst_le pos l _) hstep
    · exact ih (closestStep pos acc a) t h

lemma findClosestAux_some_absorb (pos : Point) (l : List Star) :
    ∀ (d : ℚ) (s : Star),
      ((findClosestAux pos l (d, some s)).2).isSome = true := by
  induction l with
  | nil => intro d s; rfl
  | cons a l ih =>
    intro d s
    unfold findClosestAux List.foldl
    show ((findClosestAux pos l (closestStep pos (d, some s) a)).2).isSome = true
    unfold closestStep
    split
    · exact ih _ _
    · exact ih _ _

lemma findClosestAux_none (pos : Point) (l : List Star) :
    ∀ d : ℚ, (findClosestAux pos l (d, none)).2 = none →
      findClosestAux pos l (d, none) = (d, none) ∧
        ∀ t ∈ l, ¬ sqDist t.pos pos < d := by
  induction l with
  | nil => intro d _; exact ⟨rfl, fun t ht => absurd ht (List.not_mem_nil t)⟩
  | cons a l ih =>
    intro d hnone
    have hfold : findClosestAux pos (a :: l) (d, none) =
        findClosestAux pos l (closestStep pos (d, none) a) := rfl
    by_cases hda : sqDist a.pos pos < d
    · exfalso
      have hstep : closestStep pos (d, none) a = (sqDist a.pos pos, some a) := by
        unfold closestStep; rw [if_pos hda]
      rw [hfold, hstep] at hnone
      have := findClosestAux_some_absorb pos l (sqDist a.pos pos) a
      rw [hnone] at this
      exact Bool.noConfusion this
    · have hstep : closestStep pos (d, none) a = (d, none) := by
        unfold closestStep; rw [if_neg hda]
      rw [hfold, hstep] at hnone ⊢
      obtain ⟨heq, hall⟩ := ih d hnone
      refine ⟨heq, fun t ht => ?_⟩
      rcases List.mem_cons.mp ht with h | h
      · subst h; exact hda
      · exact hall t h

/-- Invariant carried by the closest-star fold: a missing candidate
keeps the minimum at the hit radius, and a present candidate records
its own distance, strictly inside the hit radius. -/
def AccInv (pos : Point) (acc : ℚ × Option Star) : Prop :=
  (acc.2 = none → acc.1 = hitRadiusSq) ∧
  (∀ s : Star, acc.2 = some s → acc.1 = sqDist s.pos pos ∧ acc.1 < hitRadiusSq)

lemma accInv_le (pos : Point) (acc : ℚ × Option Star) (h : AccInv pos acc) :
    acc.1 ≤ hitRadiusSq := by
  rcases hopt : acc.2 with _ | s
  · exact le_of_eq (h.1 hopt)
  · exact le_of_lt (h.2 s hopt).2

lemma findClosestAux_inv (pos : Point) (l : List Star) :
    ∀ acc : ℚ × Option Star, AccInv pos acc →
      AccInv pos (findClosestAux pos l acc) := by
  induction l with
  | nil => intro acc h; exact h
  | cons a l ih =>
    intro acc h
    have hstep : AccInv pos (closestStep pos acc a) := by
      unfold closestStep
      split
      · refine ⟨fun hc => Option.noConfusion hc, fun s hs => ?_⟩
        have hsa : s = a := by
          have : some a = some s := hs
          exact (Option.some.inj this).symm
        subst hsa
        exact ⟨rfl, lt_of_lt_of_le (by assumption) (accInv_le pos acc h)⟩
      · exact h
    exact ih (closestStep pos acc a) hstep

lemma findClosestAux_mem (pos : Point) (l : List Star) :
    ∀ (acc : ℚ × Option Star) (s : Star),
      (findClosestAux pos l acc).2 = some s → s ∈ l ∨ acc.2 = some s := by
  induction l with
  | nil => intro acc s h; exact Or.inr h
  | cons a l ih =>
    intro acc s h
    have hfold : findClosestAux pos (a :: l) acc =
        findClosestAux pos l (closestStep pos acc a) := rfl
    rw [hfold] at h
    rcases ih (closestStep pos acc a) s h with hmem | hacc
    · exact Or.inl (List.mem_cons_of_mem a hmem)
    · revert hacc
      unfold closestStep
      split
      · intro hacc
        have : a = s := Option.some.inj hacc
        exact Or.inl (this ▸ List.mem_cons_self a l)
      · intro hacc; exact Or.inr hacc

/-- Specification of findClosest when it returns a star: the star is in
the field, strictly within the hit radius, and of minimal distance. -/
lemma findClosest_spec_some {pos : Point} {stars : List Star} {s : Star}
    (h : findClosest pos stars = some s) :
    s ∈ stars ∧ sqDist s.pos pos < hitRadiusSq ∧
      ∀ t ∈ stars, sqDist s.pos pos ≤ sqDist t.pos pos := by
  have hinv0 : AccInv pos (hitRadiusSq, none) :=
    ⟨fun _ => rfl, fun s hs => Option.noConfusion hs⟩
  have hinv := findClosestAux_inv pos stars (hitRadiusSq, none) hinv0
  have hd := (hinv.2 s h)
  have hmem : s ∈ stars := by
    rcases findClosestAux_mem pos stars (hitRadiusSq, none) s h with hm | hm
    · exact hm
    · exact Option.noConfusion hm
  refine ⟨hmem, hd.1 ▸ hd.2, fun t ht => ?_⟩
  have := findClosestAux_fst_le_mem pos stars (hitRadiusSq, none) t ht
  exact hd.1 ▸ this

/-- Specification of findClosest when it returns nothing: every star is
at or beyond the hit radius. -/
lemma findClosest_spec_none {pos : Point} {stars : List Star}
    (h : findClosest pos stars = none) :
    ∀ t ∈ stars, ¬ sqDist t.pos pos < hitRadiusSq :=
  (findClosestAux_none pos stars hitRadiusSq h).2

/-- findClosest finds a star exactly when some star is strictly within
the hit radius. -/
lemma findClosest_isSome_iff (pos : Point) (stars : List Star) :
    (findClosest pos stars).isSome = true ↔
      ∃ t ∈ stars, sqDist t.pos pos < hitRadiusSq := by
  constructor
  · intro h
    rcases Option.isSome_iff_exists.mp h with ⟨s, hs⟩
    obtain ⟨hmem, hlt, _⟩ := findClosest_spec_some hs
    exact ⟨s, hmem, hlt⟩
  · intro ⟨t, ht, hlt⟩
    rcases hopt : findClosest pos stars with _ | s
    · exact absurd hlt (findClosest_spec_none hopt t ht)
    · rfl

/- ---------------------------------------------------------------
   Claim theorems for the Selection Tracker and Connection Animator.
   --------------------------------------------------------------- -/

lemma handleCanvasInteraction_length_le (isActive : Bool) (pos : Point)
    (stars sel : List Star) (h : sel.length ≤ 5) :
    (handleCanvasInteraction isActive pos stars sel).1.length ≤ 5 := by
  unfold handleCanvasInteraction
  split
  · exact h
  · rename_i hguard
    have hlt : sel.length < 5 := by
      rcases Nat.lt_or_ge sel.length 5 with hl | hl
      · exact hl
      · exact absurd (Or.inr hl) hguard
    rcases hfc : findClosest pos stars with _ | s
    · simp [hfc]
      omega
    · simp [hfc]
      omega

/-- C4: the Selection Sequence never exceeds 5 entries: a call to the
selection handler with 5 entries already accepted is a no-op that
returns the sequence unchanged and reports no progress, and any
sequence of handler calls starting from a sequence of at most 5 entries
keeps the length at most 5. -/
theorem selection_capped_at_five :
    (∀ (isActive : Bool) (pos : Point) (stars sel : List Star),
      sel.length = 5 →
        handleCanvasInteraction isActive pos stars sel = (sel, none)) ∧
    (∀ (calls : List (Bool × Point × List Star)) (sel : List Star),
      sel.length ≤ 5 →
        (calls.foldl
          (fun cur c => (handleCanvasInteraction c.1 c.2.1 c.2.2 cur).1)
          sel).length ≤ 5) := by
  constructor
  · intro isActive pos stars sel h
    unfold handleCanvasInteraction
    rw [if_pos (Or.inr (le_of_eq h.symm))]
  · intro calls
    induction calls with
    | nil => intro sel h; exact h
    | cons c calls ih =>
      intro sel h
      exact ih _ (handleCanvasInteraction_length_le c.1 c.2.1 c.2.2 sel h)

/-- Witness for C4: with five stars already selected, a further call
changes nothing and reports nothing. -/
theorem selection_capped_at_five_witness :
    handleCanvasInteraction true ⟨0, 0⟩ []
      [⟨0, 0, 0, 1, 1, false⟩, ⟨1, 1, 1, 1, 1, false⟩, ⟨2, 2, 2, 1, 1, false⟩,
       ⟨3, 3, 3, 1, 1, false⟩, ⟨4, 4, 4, 1, 1, false⟩] =
    ([⟨0, 0, 0, 1, 1, false⟩, ⟨1, 1, 1, 1, 1, false⟩, ⟨2, 2, 2, 1, 1, false⟩,
      ⟨3, 3, 3, 1, 1, false⟩, ⟨4, 4, 4, 1, 1, false⟩], none) :=
  selection_capped_at_five.1 true ⟨0, 0⟩ [] _ (by rfl)

/-- C5: the selection handler appends the star of minimum Euclidean
distance to the pointer exactly when that minimum distance is below 50
units (squared distance below 2500): a tap at or beyond 50 units from
every star changes nothing and reports no progress; when a closest star
within the radius exists it is appended with the new length reported,
with no condition on whether its id already occurs in the sequence
(duplicates permitted, each occurrence counts). -/
theorem hit_test_closest_within_radius (pos : Point) (stars : List Star)
    (sel : List Star) (hsel : sel.length < 5) :
    ((∀ t ∈ stars, ¬ sqDist t.pos pos < hitRadiusSq) →
      handleCanvasInteraction true pos stars sel = (sel, none)) ∧
    ((∃ t ∈ stars, sqDist t.pos pos < hitRadiusSq) →
      (findClosest pos stars).isSome = true) ∧
    (∀ s : Star, findClosest pos stars = some s →
      s ∈ stars ∧ sqDist s.pos pos < hitRadiusSq ∧
      (∀ t ∈ stars, sqDist s.pos pos ≤ sqDist t.pos pos) ∧
      handleCanvasInteraction true pos stars sel =
        (sel ++ [s], some (sel.length + 1))) := by
  have hguard : ¬ (true = false ∨ 5 ≤ sel.length) := by
    rintro (h | h)
    · exact Bool.noConfusion h
    · omega
  refine ⟨?_, (findClosest_isSome_iff pos stars).mpr, ?_⟩
  · intro hfar
    have hnone : findClosest pos stars = none := by
      rcases hopt : findClosest pos stars with _ | s
      · rfl
      · obtain ⟨hmem, hlt, -⟩ := findClosest_spec_some hopt
        exact absurd hlt (hfar s hmem)
    unfold handleCanvasInteraction
    rw [if_neg hguard, hnone]
  · intro s hs
    obtain ⟨hmem, hlt, hminim⟩ := findClosest_spec_some hs
    refine ⟨hmem, hlt, hminim, ?_⟩
    unfold handleCanvasInteraction
    rw [if_neg hguard, hs]
    simp

/-- Witness for C5: a tap at the origin selects the single star at
(3, 4), distance 5, which is within the 50-unit radius. -/
theorem hit_test_closest_within_radius_witness :
    handleCanvasInteraction true ⟨0, 0⟩ [⟨0, 3, 4, 1, 1, false⟩] [] =
      ([⟨0, 3, 4, 1, 1, false⟩], some 1) := by
  have hfc : findClosest ⟨0, 0⟩ [⟨0, 3, 4, 1, 1, false⟩] =
      some ⟨0, 3, 4, 1, 1, false⟩ := by
    norm_num [findClosest, findClosestAux, closestStep, sqDist, Star.pos,
      hitRadiusSq]
  exact ((hit_test_closest_within_radius ⟨0, 0⟩ [⟨0, 3, 4, 1, 1, false⟩] []
      (by decide)).2.2 ⟨0, 3, 4, 1, 1, false⟩ hfc).2.2.2

lemma runConnectionEffect_true (sel : List Star) :
    ∀ n : ℕ, runConnectionEffect sel true n = 0 := by
  intro n
  induction n with
  | zero => rfl
  | succ n ih =>
    have heff : connectionEffect sel true = (true, none) := by
      unfold connectionEffect
      rw [if_neg]
      rintro ⟨-, h⟩
      exact Bool.noConfusion h
    unfold runConnectionEffect
    rw [heff]
    simpa using ih

/-- C3: when the Selection Sequence reaches length 5 the Connection
Animator computes the delay (5 * 200 ms) + 500 ms = 1500 ms and
schedules the completion callback with the five positions (ids
discarded, matching the Point-list type of the callback); once the
animating flag is set a re-run of the effect schedules nothing, so any
number of effect runs in one selection cycle schedules the callback
exactly once. -/
theorem connection_animator_fires_once (sel : List Star)
    (h : sel.length = 5) :
    connectionEffect sel false = (true, some ⟨1500, sel.map Star.pos⟩) ∧
    connectionEffect sel true = (true, none) ∧
    ∀ n : ℕ, runConnectionEffect sel false (n + 1) = 1 := by
  have h1 : connectionEffect sel false = (true, some ⟨1500, sel.map Star.pos⟩) := by
    unfold connectionEffect
    rw [if_pos ⟨h, rfl⟩, h]
    rfl
  have h2 : connectionEffect sel true = (true, none) := by
    unfold connectionEffect
    rw [if_neg]
    rintro ⟨-, hcontra⟩
    exact Bool.noConfusion hcontra
  refine ⟨h1, h2, fun n => ?_⟩
  unfold runConnectionEffect
  rw [h1]
  simpa using runConnectionEffect_true sel n

/-- Witness for C3 on a concrete selection of five stars. -/
theorem connection_animator_fires_once_witness :
    runConnectionEffect
      [⟨0, 0, 0, 1, 1, false⟩, ⟨1, 1, 1, 1, 1, false⟩, ⟨2, 2, 2, 1, 1, false⟩,
       ⟨3, 3, 3, 1, 1, false⟩, ⟨4, 4, 4, 1, 1, false⟩] false 3 = 1 :=
  (connection_animator_fires_once _ (by rfl)).2.2 2

/- ---------------------------------------------------------------
   Claim theorems for coordinate normalisation.
   --------------------------------------------------------------- -/

lemma jsRound_bounds {q : ℚ} (h0 : 0 ≤ q) (h100 : q ≤ 100) :
    0 ≤ jsRound q ∧ jsRound q ≤ 100 := by
  constructor
  · exact Int.le_floor.mpr (by push_cast; linarith)
  · have : jsRound q < 101 := by
      apply Int.floor_lt.mpr
      push_cast
      linarith
    omega

/-- C8: before transmission to the metadata collaborator each raw
selection point is normalised per axis by
normalized = round(raw / viewportDimension * 100), x against the width
and y against the height; on in-viewport inputs the result lies on the
0-100 scale. -/
theorem normalization_formula (stars : List Point) (w h : ℚ) :
    (normalizeStars stars w h).length = stars.length ∧
    (∀ i : ℕ, (normalizeStars stars w h)[i]? =
      (stars[i]?).map fun s =>
        (⟨jsRound (s.x / w * 100), jsRound (s.y / h * 100)⟩ : IntPoint)) ∧
    (0 < w → 0 < h →
      (∀ s ∈ stars, 0 ≤ s.x ∧ s.x ≤ w ∧ 0 ≤ s.y ∧ s.y ≤ h) →
      ∀ q ∈ normalizeStars stars w h,
        0 ≤ q.x ∧ q.x ≤ 100 ∧ 0 ≤ q.y ∧ q.y ≤ 100) := by
  refine ⟨by simp [normalizeStars], ?_, ?_⟩
  · intro i
    simp [normalizeStars]
  · intro hw hh hin q hq
    rcases List.mem_map.mp hq with ⟨s, hs, rfl⟩
    obtain ⟨hx0, hxw, hy0, hyh⟩ := hin s hs
    have hxq : 0 ≤ s.x / w * 100 ∧ s.x / w * 100 ≤ 100 := by
      constructor
      · positivity
      · have hd : s.x / w ≤ 1 := (div_le_one hw).mpr hxw
        linarith
    have hyq : 0 ≤ s.y / h * 100 ∧ s.y / h * 100 ≤ 100 := by
      constructor
      · positivity
      · have hd : s.y / h ≤ 1 := (div_le_one hh).mpr hyh
        linarith
    obtain ⟨ha, hb⟩ := jsRound_bounds hxq.1 hxq.2
    obtain ⟨hc, hd⟩ := jsRound_bounds hyq.1 hyq.2
    exact ⟨ha, hb, hc, hd⟩

/-- Witness for C8 at the point (5, 10) on a 10 x 20 viewport. -/
theorem normalization_formula_witness :
    0 ≤ (⟨jsRound ((5 : ℚ) / 10 * 100), jsRound ((10 : ℚ) / 20 * 100)⟩ : IntPoint).x ∧
    (⟨jsRound ((5 : ℚ) / 10 * 100), jsRound ((10 : ℚ) / 20 * 100)⟩ : IntPoint).x ≤ 100 ∧
    0 ≤ (⟨jsRound ((5 : ℚ) / 10 * 100), jsRound ((10 : ℚ) / 20 * 100)⟩ : IntPoint).y ∧
    (⟨jsRound ((5 : ℚ) / 10 * 100), jsRound ((10 : ℚ) / 20 * 100)⟩ : IntPoint).y ≤ 100 :=
  (normalization_formula [⟨5, 10⟩] 10 20).2.2 (by norm_num) (by norm_num)
    (by decide) _ (List.mem_cons_self _ _)

/- ---------------------------------------------------------------
   Claim theorems for the orchestrator state machine.
   --------------------------------------------------------------- -/

/-- C2 counterexample: a failing image generation sends the phase back
to INTRO, but the partially-set metadata is NOT cleared: after the
failure the stored metadata is still present (here the fallback value),
contradicting the claim that it is cleared. -/
theorem image_failure_counterexample :
    (handleStarsSelected (startJourney ⟨.INTRO, [], 0, none, none, 0⟩)
      [⟨10, 10⟩, ⟨10, 10⟩, ⟨10, 10⟩, ⟨10, 10⟩, ⟨10, 10⟩]
      .apiError (Except.error ())).phase = AppPhase.INTRO ∧
    (handleStarsSelected (startJourney ⟨.INTRO, [], 0, none, none, 0⟩)
      [⟨10, 10⟩, ⟨10, 10⟩, ⟨10, 10⟩, ⟨10, 10⟩, ⟨10, 10⟩]
      .apiError (Except.error ())).constellationData = some fallbackMetadata :=
  ⟨rfl, rfl⟩

/-- C2 amended: any image-generation failure during initial generation
restores the phase to INTRO; the partially-set metadata is left in
place (it is cleared only by the next startJourney), the generated
image keeps its cycle-start value, and when the cycle started with no
image (as startJourney guarantees) no GeneratedAsset is surfaced. -/
theorem image_failure_returns_to_intro (s : AppState) (stars : List Point)
    (mo : MetaApiOutcome) (e : Unit) :
    (handleStarsSelected s stars mo (Except.error e)).phase = AppPhase.INTRO ∧
    (handleStarsSelected s stars mo (Except.error e)).constellationData =
      some (generateConstellationMetadata mo) ∧
    (handleStarsSelected s stars mo (Except.error e)).generatedImage =
      s.generatedImage ∧
    ¬ resultSurfaced (handleStarsSelected s stars mo (Except.error e)) := by
  refine ⟨rfl, rfl, rfl, ?_⟩
  rintro ⟨hph | hph, -, -⟩ <;> exact AppPhase.noConfusion hph

/-- Witness for C2 amended at a concrete failing run. -/
theorem image_failure_returns_to_intro_witness :
    ¬ resultSurfaced (handleStarsSelected
      (startJourney ⟨.INTRO, [], 0, none, none, 0⟩) [⟨10, 10⟩]
      (.success ⟨"A", "B", "C"⟩) (Except.error ())) :=
  (image_failure_returns_to_intro (startJourney ⟨.INTRO, [], 0, none, none, 0⟩)
    [⟨10, 10⟩] (.success ⟨"A", "B", "C"⟩) ()).2.2.2

/-- C6: an edit request from the Result phase that fails restores the
phase to RESULT (the prior phase, not INTRO) and leaves the stored
image and metadata untouched; a successful edit replaces the current
image, keeps the metadata, and returns to RESULT. -/
theorem edit_failure_restores_result (s : AppState) (instr img : String)
    (hphase : s.phase = AppPhase.RESULT) (himg : s.generatedImage = some img) :
    (∀ e : Unit,
      (handleEdit s instr (Except.error e)).phase = AppPhase.RESULT ∧
      (handleEdit s instr (Except.error e)).generatedImage = s.generatedImage ∧
      (handleEdit s instr (Except.error e)).constellationData =
        s.constellationData) ∧
    (∀ newImg : String,
      (handleEdit s instr (Except.ok newImg)).phase = AppPhase.RESULT ∧
      (handleEdit s instr (Except.ok newImg)).generatedImage = some newImg ∧
      (handleEdit s instr (Except.ok newImg)).constellationData =
        s.constellationData) := by
  constructor
  · intro e
    refine ⟨?_, ?_, ?_⟩ <;> simp [handleEdit, himg, hphase]
  · intro newImg
    refine ⟨?_, ?_, ?_⟩ <;> simp [handleEdit, himg]

/-- Witness for C6 at a concrete state in the Result phase. -/
theorem edit_failure_restores_result_witness :
    (handleEdit ⟨.RESULT, [], 5, some fallbackMetadata, some "img", 1⟩
      "add glitch" (Except.error ())).phase = AppPhase.RESULT ∧
    (handleEdit ⟨.RESULT, [], 5, some fallbackMetadata, some "img", 1⟩
      "add glitch" (Except.error ())).generatedImage = some "img" :=
  ⟨((edit_failure_restores_result _ "add glitch" "img" rfl rfl).1 ()).1,
   ((edit_failure_restores_result _ "add glitch" "img" rfl rfl).1 ()).2.1⟩

/-- C10: generateConstellationMetadata is total for its caller: every
internal failure (transport error or missing text) yields the fixed
fallback metadata rather than a rejection, and consequently the
orchestrator reaches its catch branch (phase back to INTRO) exactly
when the image-generation step fails, never through the metadata
step. -/
theorem metadata_total_fallback :
    (generateConstellationMetadata .noText = fallbackMetadata ∧
     generateConstellationMetadata .apiError = fallbackMetadata ∧
     fallbackMetadata.name = "The Unseen Path" ∧
     fallbackMetadata.horoscope =
       "Your 2026 is a canvas waiting for your own light to guide the way." ∧
     fallbackMetadata.visualPrompt =
       "A glowing mystic constellation on a dark blue card, gold filigree borders, holographic style.") ∧
    (∀ (s : AppState) (stars : List Point) (mo : MetaApiOutcome)
       (io : Except Unit String),
      (handleStarsSelected s stars mo io).phase = AppPhase.INTRO ↔
        ∃ e : Unit, io = Except.error e) := by
  refine ⟨⟨rfl, rfl, rfl, rfl, rfl⟩, ?_⟩
  intro s stars mo io
  cases io with
  | ok img =>
    constructor
    · intro hph; exact AppPhase.noConfusion hph
    · rintro ⟨e, he⟩; exact Except.noConfusion he
  | error e => exact ⟨fun _ => ⟨e, rfl⟩, fun _ => rfl⟩

end CelestialSpark
